import Mathlib

/-!
Verification development for the H2O-3 target-encoding client
(`h2o-py/h2o/targetencoder.py`) and the target-encoding computation it
parameterises.

The Python file is an argument-marshalling shim: `fit` resolves column
references and ships them to a remote evaluator, `transform` validates its
arguments and builds a symbolic expression.  The shim itself is embedded
faithfully below (`resolveTeColumns`, `fitShim`, `transformShim`).  The
encoding computation proper (fold-aware aggregation, leave-one-out and
k-fold holdout, blending, noise) executes in the remote backend and is not
part of the excerpt; those parts are modelled from the specification, each
such definition carrying a doc comment that says so.
-/

/-! ## Spec-modelled data model for the encoding computation -/

/-- Modelled from the spec: a dataset row for a single encoded categorical
column — the category value, the (binary, 0/1) response, and the fold id. -/
structure DRow where
  category : String
  response : ℚ
  fold : ℕ
deriving DecidableEq, Repr

/-- Modelled from the spec: the three supported holdout strategies. -/
inductive Holdout where
  | kfold
  | loo
  | noHoldout
deriving DecidableEq, Repr

/-- Weight function selecting the row count contribution (1 per row). -/
def countW : DRow → ℚ := fun _ => 1

/-- Modelled from the spec: per-category global aggregate — the sum of the
weight `w` over all rows of the dataset whose category is `c`. -/
def catAgg (w : DRow → ℚ) (c : String) : List DRow → ℚ
  | [] => 0
  | r :: ds => (if r.category = c then w r else 0) + catAgg w c ds

/-- Modelled from the spec: per-(category, fold) aggregate — the sum of the
weight `w` over all rows whose category is `c` and fold id is `f`. -/
def foldAgg (w : DRow → ℚ) (c : String) (f : ℕ) : List DRow → ℚ
  | [] => 0
  | r :: ds => (if r.category = c ∧ r.fold = f then w r else 0) + foldAgg w c f ds

/-- Aggregate over rows of category `c` whose fold id is NOT `f`. -/
def neAgg (w : DRow → ℚ) (c : String) (f : ℕ) : List DRow → ℚ
  | [] => 0
  | r :: ds => (if r.category = c ∧ r.fold ≠ f then w r else 0) + neAgg w c f ds

/-- Aggregate over rows of category `c` whose fold id lies in the set `F`. -/
def inAgg (w : DRow → ℚ) (c : String) (F : Finset ℕ) : List DRow → ℚ
  | [] => 0
  | r :: ds => (if r.category = c ∧ r.fold ∈ F then w r else 0) + inAgg w c F ds

/-- The set of fold ids present in a dataset. -/
def foldsOf : List DRow → Finset ℕ
  | [] => ∅
  | r :: ds => insert r.fold (foldsOf ds)

/-- Modelled from the spec: whole-dataset aggregate of the weight `w`. -/
def allAgg (w : DRow → ℚ) : List DRow → ℚ
  | [] => 0
  | r :: ds => w r + allAgg w ds

/-- Modelled from the spec: the global prior, total response sum over total
row count. -/
def priorMean (ds : List DRow) : ℚ := allAgg DRow.response ds / allAgg countW ds

/-- Modelled from the spec: the effective (count, sum) pair the transformer
uses for a row, by holdout strategy.  "kfold" subtracts the contribution of
the row's own fold from the global per-category aggregate; "loo" subtracts
the row's own response and a count of 1; "none" uses the global aggregate. -/
def rowEffective (fitds : List DRow) (h : Holdout) (r : DRow) : ℚ × ℚ :=
  match h with
  | Holdout.kfold =>
      (catAgg countW r.category fitds - foldAgg countW r.category r.fold fitds,
       catAgg DRow.response r.category fitds - foldAgg DRow.response r.category r.fold fitds)
  | Holdout.loo =>
      (catAgg countW r.category fitds - 1,
       catAgg DRow.response r.category fitds - r.response)
  | Holdout.noHoldout =>
      (catAgg countW r.category fitds, catAgg DRow.response r.category fitds)

/-- Synthetic frame of the spec's kfold example: category "A", fold 0 with
count 3 and response sum 2, fold 1 with count 2 and response sum 1. -/
def exKfoldDs : List DRow :=
  [⟨"A", 1, 0⟩, ⟨"A", 1, 0⟩, ⟨"A", 0, 0⟩, ⟨"A", 1, 1⟩, ⟨"A", 0, 1⟩]

/-- A fold-0 row of category "A" in the kfold example frame. -/
def exKfoldRow : DRow := ⟨"A", 1, 0⟩

/-- Frame of the spec's loo example: category "A" with total count 5 and
response sum 3. -/
def exLooDs : List DRow :=
  [⟨"A", 1, 0⟩, ⟨"A", 1, 0⟩, ⟨"A", 1, 1⟩, ⟨"A", 0, 1⟩, ⟨"A", 0, 1⟩]

/-- A row of the loo example frame whose own response is 1. -/
def exLooRow : DRow := ⟨"A", 1, 0⟩

/-! ## Aggregate decomposition lemmas -/

theorem catAgg_eq_foldAgg_add_neAgg (w : DRow → ℚ) (c : String) (f : ℕ) :
    ∀ ds : List DRow, catAgg w c ds = foldAgg w c f ds + neAgg w c f ds := by
  intro ds
  induction ds with
  | nil => simp [catAgg, foldAgg, neAgg]
  | cons r ds ih =>
    by_cases hc : r.category = c
    · by_cases hf : r.fold = f
      · simp [catAgg, foldAgg, neAgg, hc, hf, ih]; ring
      · simp [catAgg, foldAgg, neAgg, hc, hf, ih]; ring
    · simp [catAgg, foldAgg, neAgg, hc, ih]

theorem sum_foldAgg_eq_inAgg (w : DRow → ℚ) (c : String) (F : Finset ℕ) :
    ∀ ds : List DRow, (∑ f ∈ F, foldAgg w c f ds) = inAgg w c F ds := by
  intro ds
  induction ds with
  | nil => simp [foldAgg, inAgg]
  | cons r ds ih =>
    simp only [foldAgg, inAgg, Finset.sum_add_distrib, ih]
    congr 1
    by_cases hc : r.category = c
    · simp only [hc, true_and]
      rw [Finset.sum_ite_eq F r.fold (fun _ => w r)]
    · simp [hc]

theorem inAgg_erase_eq_neAgg (w : DRow → ℚ) (c : String) (f0 : ℕ) (F : Finset ℕ) :
    ∀ ds : List DRow, (∀ r ∈ ds, r.fold ∈ F) →
      inAgg w c (F.erase f0) ds = neAgg w c f0 ds := by
  intro ds
  induction ds with
  | nil => intro _; simp [inAgg, neAgg]
  | cons r ds ih =>
    intro hcov
    have hrF : r.fold ∈ F := hcov r (List.mem_cons_self r ds)
    have hcov' : ∀ x ∈ ds, x.fold ∈ F := fun x hx => hcov x (List.mem_cons_of_mem r hx)
    simp only [inAgg, neAgg, ih hcov']
    congr 1
    by_cases hne : r.fold = f0
    · simp [Finset.mem_erase, hne]
    · simp [Finset.mem_erase, hne, hrF]

theorem mem_foldsOf {r : DRow} : ∀ {ds : List DRow}, r ∈ ds → r.fold ∈ foldsOf ds := by
  intro ds
  induction ds with
  | nil => intro h; cases h
  | cons x ds ih =>
    intro h
    rcases List.mem_cons.mp h with h | h
    · subst h; simp [foldsOf]
    · simp [foldsOf, ih h]

/-! ## Spec-modelled blending, noise and the transform pipeline -/

/-- Modelled from the spec: the blending weight,
lambda = 1 / (1 + exp (-(count - inflection_point) / smoothing)). -/
noncomputable def blendLambda (ip s count : ℝ) : ℝ :=
  1 / (1 + Real.exp (-(count - ip) / s))

/-- Modelled from the spec: the per-row estimate before noise.  If the
effective count is 0, fall back to the prior; otherwise `sum / count`,
blended with the prior through `blendLambda` when blending is enabled. -/
noncomputable def blendedEstimate (blending : Bool) (ip s count sum prior : ℝ) : ℝ :=
  if count = 0 then prior
  else if blending then
    blendLambda ip s count * (sum / count) + (1 - blendLambda ip s count) * prior
  else sum / count

/-- Modelled from the spec: the (possibly blended) estimate for a row, from
the fit dataset's aggregates under the chosen holdout strategy. -/
noncomputable def rowEstimate (fitds : List DRow) (blending : Bool) (ip s : ℝ)
    (h : Holdout) (r : DRow) : ℝ :=
  blendedEstimate blending ip s
    ((rowEffective fitds h r).1 : ℝ) ((rowEffective fitds h r).2 : ℝ)
    ((priorMean fitds : ℚ) : ℝ)

/-- A 32-bit linear congruential step, the deterministic pseudo-random
generator underlying the modelled noise draws. -/
def lcg (n : ℕ) : ℕ := (1664525 * n + 1013904223) % 4294967296

/-- Modelled from the spec: a pseudo-random fraction in [0, 1) derived from
(seed, row index), so reproducibility holds independently of row order. -/
noncomputable def lcgFrac (seed idx : ℕ) : ℝ :=
  (lcg (seed + 2654435761 * idx) : ℝ) / 4294967296

/-- Modelled from the spec: a uniform noise draw in [-noise, +noise]
derived deterministically from (seed, row index). -/
noncomputable def uniformNoise (seed idx : ℕ) (noise : ℝ) : ℝ :=
  noise * (2 * lcgFrac seed idx - 1)

/-- Modelled from the spec: the emitted value for one row — the estimate,
perturbed by the seed-derived noise draw when `noise >= 0` and left exactly
unperturbed when `noise < 0` (the default sentinel). -/
noncomputable def encodeRow (fitds : List DRow) (blending : Bool) (ip s : ℝ)
    (h : Holdout) (noise : ℝ) (seed idx : ℕ) (r : DRow) : ℝ :=
  if noise < 0 then rowEstimate fitds blending ip s h r
  else rowEstimate fitds blending ip s h r + uniformNoise seed idx noise

/-- Modelled from the spec: the whole transform pass — each input row, in
order, paired with its encoded value (original row data retained, the
encoded column appended). -/
noncomputable def transformDataset (fitds : List DRow) (blending : Bool) (ip s : ℝ)
    (h : Holdout) (noise : ℝ) (seed : ℕ) (ds : List DRow) : List (DRow × ℝ) :=
  ds.enum.map (fun p => (p.2, encodeRow fitds blending ip s h noise seed p.1 p.2))

/-! ## Source-embedded shim: column resolution, fit, transform -/

/-- A column reference as the Python shim receives it: a name or an index. -/
inductive ColRef where
  | name (s : String)
  | idx (i : ℕ)
deriving DecidableEq, Repr

/-- Whether a column reference is an integer index. -/
def ColRef.isInt : ColRef → Bool
  | ColRef.idx _ => true
  | ColRef.name _ => false

/-- Resolution of one column reference against the frame's column names
(`frame.names[i]`); an out-of-range index fails. -/
def resolveOne (names : List String) : ColRef → Option ColRef
  | ColRef.idx i => (names[i]?).map ColRef.name
  | ColRef.name s => some (ColRef.name s)

/-- Embeds line 73 of targetencoder.py: the categorical-column list is
mapped through `frame.names` only when ALL entries are integers; otherwise
it is left entirely unchanged. -/
def resolveTeColumns (names : List String) (cols : List ColRef) : Option (List ColRef) :=
  if cols.all ColRef.isInt then cols.mapM (resolveOne names) else some cols

/-- The spec's error taxonomy for the encoder. -/
inductive TEError where
  | invalidArgument
  | invalidResponse
  | missingFold
  | unfittedEncoder
  | assertionFailure
deriving DecidableEq, Repr

/-- The backend's encoding-map object as the shim sees it: the string map
keys and the per-column frame key names. -/
structure EncMapObj where
  mapKeys : List String
  frameKeys : List String
deriving DecidableEq, Repr

/-- The observable state of a `TargetEncoder` instance. -/
structure TEState where
  teColumns : List ColRef
  responseColumnName : ColRef
  foldColumnName : ColRef
  blending : Bool
  inflectionPoint : ℚ
  smoothing : ℚ
  encodingMap : Option EncMapObj
deriving DecidableEq, Repr

/-- The argument tuple `transform` hands to the remote expression, in the
order of lines 105-108 of targetencoder.py. -/
structure TransformArgs where
  encodingMapKeys : List String
  encodingMapFramesKeys : List String
  frame : String
  teColumns : List ColRef
  holdoutType : String
  responseColumnName : ColRef
  foldColumnName : ColRef
  blending : Bool
  inflectionPoint : ℚ
  smoothing : ℚ
  noise : ℚ
  seed : ℤ
  isTrainOrValid : Bool
deriving DecidableEq, Repr

/-- Embeds `TargetEncoder.fit` (lines 73-78): resolve the categorical
columns, then the response column, then the fold column — each assignment
taking effect before the next step can fail — then call the backend
(modelled as the `backend` argument) and store the returned map.  Returns
the call's result together with the instance state after the call. -/
def fitShim (st : TEState) (names : List String)
    (backend : Except TEError EncMapObj) : Except TEError EncMapObj × TEState :=
  match resolveTeColumns names st.teColumns with
  | Option.none => (Except.error TEError.invalidArgument, st)
  | some te =>
    let st1 := { st with teColumns := te }
    match resolveOne names st.responseColumnName with
    | Option.none => (Except.error TEError.invalidArgument, st1)
    | some rc =>
      let st2 := { st1 with responseColumnName := rc }
      match resolveOne names st.foldColumnName with
      | Option.none => (Except.error TEError.invalidArgument, st2)
      | some fc =>
        let st3 := { st2 with foldColumnName := fc }
        match backend with
        | Except.error e => (Except.error e, st3)
        | Except.ok m => (Except.ok m, { st3 with encodingMap := some m })

/-- The holdout_type strings `assert_is_type` accepts on line 99. -/
def validHoldout (h : String) : Prop := h = "kfold" ∨ h = "loo" ∨ h = "none"

instance (h : String) : Decidable (validHoldout h) := by
  unfold validHoldout; infer_instance

/-- The expression arguments transform builds when every check passes. -/
def mkTransformArgs (st : TEState) (m : EncMapObj) (isTrainOrValid : Bool)
    (frame holdoutType : String) (noise : ℚ) (seed : ℤ) : TransformArgs :=
  { encodingMapKeys := m.mapKeys
    encodingMapFramesKeys := m.frameKeys
    frame := frame
    teColumns := st.teColumns
    holdoutType := holdoutType
    responseColumnName := st.responseColumnName
    foldColumnName := st.foldColumnName
    blending := st.blending
    inflectionPoint := st.inflectionPoint
    smoothing := st.smoothing
    noise := noise
    seed := seed
    isTrainOrValid := isTrainOrValid }

/-- Embeds `TargetEncoder.transform` (lines 99-108): first the
holdout_type membership check (line 99, `InvalidArgumentError` in the
spec's taxonomy), then the access to the stored encoding map (line 102,
`UnfittedEncoderError` when `fit` has not run), then the assertion that
the map's string keys equal the configured categorical-column list
(line 102), and only then the construction of the expression arguments.
The state is not touched. -/
def transformShim (st : TEState) (isTrainOrValid : Bool) (frame holdoutType : String)
    (noise : ℚ) (seed : ℤ) : Except TEError TransformArgs :=
  if validHoldout holdoutType then
    match st.encodingMap with
    | Option.none => Except.error TEError.unfittedEncoder
    | some m =>
      if st.teColumns = m.mapKeys.map ColRef.name then
        Except.ok (mkTransformArgs st m isTrainOrValid frame holdoutType noise seed)
      else Except.error TEError.assertionFailure
  else Except.error TEError.invalidArgument

/-- An unfitted encoder state used in concrete instantiations. -/
def stUnfitted : TEState :=
  { teColumns := [ColRef.idx 0]
    responseColumnName := ColRef.name "y"
    foldColumnName := ColRef.name ""
    blending := true
    inflectionPoint := 3
    smoothing := 1
    encodingMap := Option.none }

/-- A fitted encoder state whose map keys match its column list. -/
def stFitted : TEState :=
  { teColumns := [ColRef.name "A"]
    responseColumnName := ColRef.name "y"
    foldColumnName := ColRef.name ""
    blending := true
    inflectionPoint := 3
    smoothing := 1
    encodingMap := some { mapKeys := ["A"], frameKeys := ["mapA"] } }

/-- A fitted encoder state whose map keys do NOT match its column list. -/
def stMismatched : TEState :=
  { teColumns := [ColRef.name "B"]
    responseColumnName := ColRef.name "y"
    foldColumnName := ColRef.name ""
    blending := true
    inflectionPoint := 3
    smoothing := 1
    encodingMap := some { mapKeys := ["A"], frameKeys := ["mapA"] } }

theorem catAgg_erase (w : DRow → ℚ) (c : String) (r : DRow) :
    ∀ ds : List DRow, r ∈ ds →
      catAgg w c (ds.erase r) = catAgg w c ds - (if r.category = c then w r else 0) := by
  intro ds
  induction ds with
  | nil => intro h; cases h
  | cons a ds ih =>
    intro h
    by_cases ha : a = r
    · subst ha
      rw [List.erase_cons_head]
      simp only [catAgg]
      ring
    · have hr : r ∈ ds := by
        rcases List.mem_cons.mp h with h1 | h1
        · exact absurd h1.symm ha
        · exact h1
      rw [List.erase_cons_tail, catAgg, catAgg, ih hr]
      · ring
      · simp [ha]

/-- C1: for every training row transformed with holdout_type "kfold", the
effective (count, sum) for the row's category equals the aggregate over all
folds except the row's own fold; in particular, on the synthetic 2-fold
frame where category "A" has fold-0 count=3 sum=2 and fold-1 count=2 sum=1,
a fold-0 row of category "A" sees effective count=2 and sum=1. -/
theorem kfold_effective_excludes_own_fold :
    (∀ (ds : List DRow) (r : DRow),
      rowEffective ds Holdout.kfold r =
        (∑ f ∈ (foldsOf ds).erase r.fold, foldAgg countW r.category f ds,
         ∑ f ∈ (foldsOf ds).erase r.fold, foldAgg DRow.response r.category f ds)) ∧
    rowEffective exKfoldDs Holdout.kfold exKfoldRow = (2, 1) := by
  constructor
  · intro ds r
    have key : ∀ w : DRow → ℚ,
        (∑ f ∈ (foldsOf ds).erase r.fold, foldAgg w r.category f ds)
          = catAgg w r.category ds - foldAgg w r.category r.fold ds := by
      intro w
      rw [sum_foldAgg_eq_inAgg,
          inAgg_erase_eq_neAgg w r.category r.fold (foldsOf ds) ds
            (fun x hx => mem_foldsOf hx),
          catAgg_eq_foldAgg_add_neAgg w r.category r.fold ds]
      ring
    simp [rowEffective, key]
  · norm_num [rowEffective, exKfoldDs, exKfoldRow, catAgg, foldAgg, countW]

/-- C2: for every training row transformed with holdout_type "loo", the
effective aggregate for the row's category is the global aggregate minus
the row's own response and minus a count of 1, which equals the aggregate
over the dataset with that row removed; in particular, for category "A"
with total count=5 sum=3, a row with own response 1 sees count=4, sum=2. -/
theorem loo_effective_excludes_own_row :
    (∀ (ds : List DRow) (r : DRow), r ∈ ds →
      rowEffective ds Holdout.loo r =
        (catAgg countW r.category ds - 1,
         catAgg DRow.response r.category ds - r.response) ∧
      rowEffective ds Holdout.loo r =
        (catAgg countW r.category (ds.erase r),
         catAgg DRow.response r.category (ds.erase r))) ∧
    rowEffective exLooDs Holdout.loo exLooRow = (4, 2) := by
  constructor
  · intro ds r hr
    refine ⟨rfl, ?_⟩
    rw [catAgg_erase countW r.category r ds hr,
        catAgg_erase DRow.response r.category r ds hr]
    simp [rowEffective, countW]
  · norm_num [rowEffective, exLooDs, exLooRow, catAgg, countW]

/-- C2 witness: the general statement instantiated on the concrete loo
example frame and row. -/
theorem loo_effective_excludes_own_row_witness :
    rowEffective exLooDs Holdout.loo exLooRow =
        (catAgg countW exLooRow.category exLooDs - 1,
         catAgg DRow.response exLooRow.category exLooDs - exLooRow.response) ∧
      rowEffective exLooDs Holdout.loo exLooRow =
        (catAgg countW exLooRow.category (exLooDs.erase exLooRow),
         catAgg DRow.response exLooRow.category (exLooDs.erase exLooRow)) :=
  loo_effective_excludes_own_row.1 exLooDs exLooRow (List.mem_cons_self _ _)

/-- C3: the blending weight lambda is (strictly) monotonically increasing
in count for every inflection_point > 0 and smoothing > 0, and at
count = inflection_point it equals exactly 1/2. -/
theorem blendLambda_strictMono_and_half (ip s : ℝ) (_hip : 0 < ip) (hs : 0 < s) :
    StrictMono (blendLambda ip s) ∧ blendLambda ip s ip = 1 / 2 := by
  constructor
  · intro a b hab
    unfold blendLambda
    have hEb : Real.exp (-(b - ip) / s) < Real.exp (-(a - ip) / s) := by
      apply Real.exp_lt_exp.mpr
      exact (div_lt_div_iff_of_pos_right hs).mpr (by linarith)
    have hpos : 0 < 1 + Real.exp (-(b - ip) / s) := by positivity
    exact one_div_lt_one_div_of_lt hpos (by linarith)
  · unfold blendLambda
    rw [sub_self, neg_zero, zero_div, Real.exp_zero]
    norm_num

/-- C3 witness: with inflection_point 3 and smoothing 1, lambda is strictly
monotone in count and lambda 3 = 1/2. -/
theorem blendLambda_strictMono_and_half_witness :
    StrictMono (blendLambda 3 1) ∧ blendLambda 3 1 3 = 1 / 2 :=
  blendLambda_strictMono_and_half 3 1 zero_lt_three zero_lt_one

/-- C4: the transform pass is deterministic in its inputs (fixed dataset,
aggregates, config, holdout and seed give exactly equal outputs), and the
output preserves the input's row ordering, each output row carrying its
input row's data with the encoded column appended. -/
theorem transform_deterministic_and_order_preserving
    (fitds : List DRow) (blending : Bool) (ip s : ℝ) (h : Holdout)
    (noise : ℝ) (seed : ℕ) (ds : List DRow) :
    transformDataset fitds blending ip s h noise seed ds
        = transformDataset fitds blending ip s h noise seed ds ∧
    (transformDataset fitds blending ip s h noise seed ds).map Prod.fst = ds ∧
    (transformDataset fitds blending ip s h noise seed ds).length = ds.length := by
  refine ⟨rfl, ?_, ?_⟩
  · simp only [transformDataset, List.map_map]
    have : (Prod.fst ∘ fun p : ℕ × DRow =>
        (p.2, encodeRow fitds blending ip s h noise seed p.1 p.2)) = Prod.snd := rfl
    rw [this, List.enum_map_snd]
  · simp [transformDataset, List.enum_length]

/-- C7: with `noise < 0` (the default sentinel) the emitted value is exactly
the unperturbed estimate; with `noise >= 0` it is the estimate plus a
seed-derived perturbation lying in the interval [-noise, +noise]. -/
theorem noise_branch_behavior (fitds : List DRow) (blending : Bool) (ip s : ℝ)
    (h : Holdout) (noise : ℝ) (seed idx : ℕ) (r : DRow) :
    (noise < 0 → encodeRow fitds blending ip s h noise seed idx r
        = rowEstimate fitds blending ip s h r) ∧
    (0 ≤ noise → encodeRow fitds blending ip s h noise seed idx r
          = rowEstimate fitds blending ip s h r + uniformNoise seed idx noise ∧
        -noise ≤ uniformNoise seed idx noise ∧ uniformNoise seed idx noise ≤ noise) := by
  have hf0 : 0 ≤ lcgFrac seed idx := by
    unfold lcgFrac; positivity
  have hf1 : lcgFrac seed idx < 1 := by
    unfold lcgFrac
    rw [div_lt_one (by norm_num)]
    have hm : lcg (seed + 2654435761 * idx) < 4294967296 := by
      unfold lcg; exact Nat.mod_lt _ (by norm_num)
    exact_mod_cast hm
  constructor
  · intro hn; simp [encodeRow, hn]
  · intro hn
    refine ⟨by simp [encodeRow, not_lt.mpr hn], ?_, ?_⟩
    · unfold uniformNoise; nlinarith
    · unfold uniformNoise; nlinarith

/-- C7 witness: both branches at concrete inputs — noise -1 leaves the
estimate unchanged, noise 1 adds a bounded seed-derived perturbation. -/
theorem noise_branch_behavior_witness :
    encodeRow [] true 3 1 Holdout.noHoldout (-1) 42 0 exKfoldRow
        = rowEstimate [] true 3 1 Holdout.noHoldout exKfoldRow ∧
    (encodeRow [] true 3 1 Holdout.noHoldout 1 42 0 exKfoldRow
        = rowEstimate [] true 3 1 Holdout.noHoldout exKfoldRow + uniformNoise 42 0 1 ∧
      -(1 : ℝ) ≤ uniformNoise 42 0 1 ∧ uniformNoise 42 0 1 ≤ 1) :=
  ⟨(noise_branch_behavior [] true 3 1 Holdout.noHoldout (-1) 42 0 exKfoldRow).1
      neg_one_lt_zero,
   (noise_branch_behavior [] true 3 1 Holdout.noHoldout 1 42 0 exKfoldRow).2
      zero_le_one⟩

theorem mapM_resolve_idx (names : List String) :
    ∀ is : List ℕ, (∀ i ∈ is, i < names.length) →
      (is.map ColRef.idx).mapM (resolveOne names)
        = some (is.map fun i => ColRef.name (names.getD i "")) := by
  intro is
  induction is with
  | nil => intro _; rfl
  | cons i is ih =>
    intro hin
    have hi : i < names.length := hin i (List.mem_cons_self i is)
    have hg : names[i]? = some (names.getD i "") := by
      rw [List.getD_eq_getElem?_getD]
      cases hq : names[i]? with
      | none =>
        rw [List.getElem?_eq_none_iff] at hq
        omega
      | some x => rfl
    have ih' := ih (fun j hj => hin j (List.mem_cons_of_mem i hj))
    simp only [List.map_cons, List.mapM_cons, resolveOne]
    rw [hg, ih']
    rfl

/-- C6: at fit time, the categorical-column list is mapped through the
frame's names exactly when ALL entries are integer indices (each index i
becoming names[i]); a list mixing integer and string entries is left
entirely unchanged — no entry of it is converted. -/
theorem fit_column_resolution :
    (∀ (names : List String) (is : List ℕ), (∀ i ∈ is, i < names.length) →
      resolveTeColumns names (is.map ColRef.idx)
        = some (is.map fun i => ColRef.name (names.getD i ""))) ∧
    (∀ (names : List String) (cols : List ColRef), cols.all ColRef.isInt = false →
      resolveTeColumns names cols = some cols) ∧
    resolveTeColumns ["A", "B", "y"] [ColRef.idx 0, ColRef.name "B"]
      = some [ColRef.idx 0, ColRef.name "B"] := by
  refine ⟨?_, ?_, ?_⟩
  · intro names is hin
    have hall : (is.map ColRef.idx).all ColRef.isInt = true := by
      simp [List.all_map, Function.comp, ColRef.isInt]
    rw [resolveTeColumns, if_pos hall]
    exact mapM_resolve_idx names is hin
  · intro names cols hmix
    rw [resolveTeColumns, if_neg]
    rw [hmix]
    exact Bool.false_ne_true
  · rfl

/-- C6 witness: an all-integer list over names ["A","B","y"] resolves to
the corresponding names. -/
theorem fit_column_resolution_witness :
    resolveTeColumns ["A", "B", "y"] ([0, 1].map ColRef.idx)
      = some ([0, 1].map fun i => ColRef.name ((["A", "B", "y"]).getD i "")) :=
  fit_column_resolution.1 ["A", "B", "y"] [0, 1] (by decide)

/-- C5: transform accepts exactly the holdout_type values "kfold", "loo"
and "none"; on any other value it fails with the invalid-argument error
before producing any output, and with an accepted value it never fails
with that error. -/
theorem transform_holdout_validation (st : TEState) (itv : Bool)
    (frame hty : String) (noise : ℚ) (seed : ℤ) :
    (¬ validHoldout hty →
      transformShim st itv frame hty noise seed = Except.error TEError.invalidArgument) ∧
    (validHoldout hty →
      transformShim st itv frame hty noise seed ≠ Except.error TEError.invalidArgument) := by
  constructor
  · intro hv
    unfold transformShim
    rw [if_neg hv]
  · intro hv
    unfold transformShim
    rw [if_pos hv]
    cases hm : st.encodingMap with
    | none => simp
    | some m =>
      by_cases hk : st.teColumns = m.mapKeys.map ColRef.name
      · simp [hk]
      · simp [hk]

/-- C5 witness: "bogus" is rejected with the invalid-argument error, while
"kfold" never produces that error (here it hits the unfitted check). -/
theorem transform_holdout_validation_witness :
    transformShim stUnfitted true "f" "bogus" (-1) (-1)
        = Except.error TEError.invalidArgument ∧
    transformShim stUnfitted true "f" "kfold" (-1) (-1)
        ≠ Except.error TEError.invalidArgument :=
  ⟨(transform_holdout_validation stUnfitted true "f" "bogus" (-1) (-1)).1 (by decide),
   (transform_holdout_validation stUnfitted true "f" "kfold" (-1) (-1)).2 (Or.inl rfl)⟩

/-- C10: with a valid holdout_type and a stored encoding map, transform
checks that the map's string keys equal (same elements, same order) the
configured categorical-column list: on a mismatch it fails with the
assertion failure before constructing the transform expression, and on a
match it returns exactly the expression arguments. -/
theorem transform_keys_assertion (st : TEState) (itv : Bool) (frame hty : String)
    (noise : ℚ) (seed : ℤ) (m : EncMapObj)
    (hm : st.encodingMap = some m) (hv : validHoldout hty) :
    (st.teColumns ≠ m.mapKeys.map ColRef.name →
      transformShim st itv frame hty noise seed
        = Except.error TEError.assertionFailure) ∧
    (st.teColumns = m.mapKeys.map ColRef.name →
      transformShim st itv frame hty noise seed
        = Except.ok (mkTransformArgs st m itv frame hty noise seed)) := by
  constructor
  · intro hk
    unfold transformShim
    rw [if_pos hv, hm]
    simp [hk]
  · intro hk
    unfold transformShim
    rw [if_pos hv, hm]
    simp [hk]

/-- C10 witness: a fitted state with mismatched keys hits the assertion
failure; a matching state returns the expression arguments. -/
theorem transform_keys_assertion_witness :
    transformShim stMismatched true "f" "kfold" (-1) (-1)
        = Except.error TEError.assertionFailure ∧
    transformShim stFitted true "f" "kfold" (-1) (-1)
        = Except.ok (mkTransformArgs stFitted
            { mapKeys := ["A"], frameKeys := ["mapA"] } true "f" "kfold" (-1) (-1)) :=
  ⟨(transform_keys_assertion stMismatched true "f" "kfold" (-1) (-1)
      { mapKeys := ["A"], frameKeys := ["mapA"] } rfl (Or.inl rfl)).1 (by decide),
   (transform_keys_assertion stFitted true "f" "kfold" (-1) (-1)
      { mapKeys := ["A"], frameKeys := ["mapA"] } rfl (Or.inl rfl)).2 rfl⟩

/-- C9 counterexample: an unfitted encoder called with an invalid
holdout_type fails with the invalid-argument error, not the
unfitted-encoder error — the holdout_type check on line 99 runs before the
encoding map is touched — so not every transform call on an unfitted
encoder fails with UnfittedEncoderError. -/
theorem unfitted_transform_counterexample :
    transformShim stUnfitted true "f" "bogus" (-1) (-1)
        = Except.error TEError.invalidArgument ∧
    transformShim stUnfitted true "f" "bogus" (-1) (-1)
        ≠ Except.error TEError.unfittedEncoder := by
  constructor
  · rfl
  · intro h
    exact TEError.noConfusion (Except.error.inj h)

/-- C9 amended: on an encoder on which fit has not been called, every
transform call fails and produces no output dataset; the error is
UnfittedEncoderError when the holdout_type is one of the accepted values,
and InvalidArgumentError (raised first by the holdout_type check)
otherwise. -/
theorem unfitted_transform_always_fails (st : TEState) (itv : Bool)
    (frame hty : String) (noise : ℚ) (seed : ℤ)
    (hunfit : st.encodingMap = Option.none) :
    (validHoldout hty →
      transformShim st itv frame hty noise seed
        = Except.error TEError.unfittedEncoder) ∧
    (¬ validHoldout hty →
      transformShim st itv frame hty noise seed
        = Except.error TEError.invalidArgument) := by
  constructor
  · intro hv
    unfold transformShim
    rw [if_pos hv, hunfit]
  · intro hv
    unfold transformShim
    rw [if_neg hv]

/-- C9 amended witness: the unfitted state fails with the unfitted error on
"kfold" and with the invalid-argument error on "other". -/
theorem unfitted_transform_always_fails_witness :
    transformShim stUnfitted true "f" "kfold" (-1) (-1)
        = Except.error TEError.unfittedEncoder ∧
    transformShim stUnfitted true "f" "other" (-1) (-1)
        = Except.error TEError.invalidArgument :=
  ⟨(unfitted_transform_always_fails stUnfitted true "f" "kfold" (-1) (-1) rfl).1
      (Or.inl rfl),
   (unfitted_transform_always_fails stUnfitted true "f" "other" (-1) (-1) rfl).2
      (by decide)⟩

/-- C8 counterexample: a fit call that fails in the backend (for example on
a non-binary response) still leaves the encoder's categorical-column list
resolved to names — the observable state after the failing call differs
from the state before it, so fit does not fail atomically. -/
theorem fit_failure_mutates_state_counterexample :
    (fitShim stUnfitted ["A", "y"] (Except.error TEError.invalidResponse)).1
        = Except.error TEError.invalidResponse ∧
    (fitShim stUnfitted ["A", "y"] (Except.error TEError.invalidResponse)).2.teColumns
        ≠ stUnfitted.teColumns := by
  constructor
  · rfl
  · decide

/-- C8 amended: whenever fit fails, no partial encoding map is stored —
the stored map is exactly what it was before the call — although column
references may already have been resolved to names by the failing call. -/
theorem fit_failure_preserves_encoding_map (st : TEState) (names : List String)
    (backend : Except TEError EncMapObj) (e : TEError)
    (hfail : (fitShim st names backend).1 = Except.error e) :
    (fitShim st names backend).2.encodingMap = st.encodingMap := by
  cases h1 : resolveTeColumns names st.teColumns with
  | none => simp [fitShim, h1]
  | some te =>
    cases h2 : resolveOne names st.responseColumnName with
    | none => simp [fitShim, h1, h2]
    | some rc =>
      cases h3 : resolveOne names st.foldColumnName with
      | none => simp [fitShim, h1, h2, h3]
      | some fc =>
        cases backend with
        | error e2 => simp [fitShim, h1, h2, h3]
        | ok m =>
          simp [fitShim, h1, h2, h3] at hfail

/-- C8 amended witness: the failing fit call of the counterexample leaves
the stored encoding map unchanged. -/
theorem fit_failure_preserves_encoding_map_witness :
    (fitShim stUnfitted ["A", "y"] (Except.error TEError.invalidResponse)).2.encodingMap
        = stUnfitted.encodingMap :=
  fit_failure_preserves_encoding_map stUnfitted ["A", "y"]
    (Except.error TEError.invalidResponse) TEError.invalidResponse rfl
